import Mathlib

/-!
Shallow embedding of `luni/src/main/native/org_apache_harmony_luni_platform_OSMemory.cpp`
(Android libcore's OSMemory native layer).

Native memory is modelled as a byte map `Mem : Nat → Nat` (little-endian, as on
the two target architectures, ARM and x86).  Scalar values are natural numbers
below `2^w`; machine arithmetic is made explicit with `% 2^w`.  The JNI / OS
environment (the VMRuntime accounting authority, calloc, mmap, mincore) is
passed in as explicit oracle parameters, so the functions below are the pure
content of the corresponding C functions.
-/

/-- The `i`-th little-endian byte of the value `v`. -/
def byte (v i : Nat) : Nat := v / 2^(8*i) % 2^8

/-- `bswap_16` from `<byteswap.h>` (equivalently the ARM `rev16` instruction used by
`fastSwap16`): reverse the two bytes of a 16-bit value. -/
def bswap_16 (v : Nat) : Nat := byte v 0 * 2^8 + byte v 1

/-- `bswap_32` from `<byteswap.h>` (equivalently the ARM `rev` instruction used by
`fastSwap32`): reverse the four bytes of a 32-bit value. -/
def bswap_32 (v : Nat) : Nat :=
  byte v 0 * 2^24 + byte v 1 * 2^16 + byte v 2 * 2^8 + byte v 3

/-- `bswap_64` from `<byteswap.h>`: reverse the eight bytes of a 64-bit value. -/
def bswap_64 (v : Nat) : Nat :=
  byte v 0 * 2^56 + byte v 1 * 2^48 + byte v 2 * 2^40 + byte v 3 * 2^32 +
  byte v 4 * 2^24 + byte v 5 * 2^16 + byte v 6 * 2^8 + byte v 7

/-- `fastSwap16`: on ARM an inline `rev16`, otherwise `bswap_16`; both reverse
the two bytes of a `jshort`. -/
def fastSwap16 (v : Nat) : Nat := bswap_16 v

/-- `fastSwap32`: on ARM an inline `rev`, otherwise `bswap_32`; both reverse
the four bytes of a `jint`. -/
def fastSwap32 (v : Nat) : Nat := bswap_32 v

/-- `swapShorts`: copy `count` 16-bit elements from source to destination,
byte-swapping each.  Pairs of shorts are processed through the 32-bit view
(`jint` load, `fastSwap32`, then exchange of the 16-bit halves with
`(v << 16) | ((v >> 16) & 0xffff)`); an odd trailing element is swapped with
`fastSwap16`.  The `jint` view of two consecutive shorts `s0, s1` on a
little-endian machine is `s0 + s1 * 2^16`; a stored 32-bit word `w` is read
back as the shorts `w % 2^16` and `w / 2^16`. -/
def swapShorts : List Nat → List Nat
  | [] => []
  | [s] => [fastSwap16 s]
  | s0 :: s1 :: rest =>
    let v := s0 % 2^16 + s1 % 2^16 * 2^16
    let vs := fastSwap32 v
    let v2 := ((vs <<< 16) % 2^32) ||| ((vs >>> 16) &&& 0xffff)
    v2 % 2^16 :: v2 / 2^16 :: swapShorts rest

/-- `swapInts`: copy `count` 32-bit elements, applying `fastSwap32` to each. -/
def swapInts : List Nat → List Nat
  | [] => []
  | v :: rest => fastSwap32 (v % 2^32) :: swapInts rest

/-- `swapLongs`: copy `count` 64-bit elements; each long is read as two
consecutive `jint`s (little-endian: `v1` is the low word, `v2` the high word),
each word is `fastSwap32`ed, and they are stored exchanged (`dst[0] = v2;
dst[1] = v1`), so the stored long is `fastSwap32 v2 + fastSwap32 v1 * 2^32`. -/
def swapLongs : List Nat → List Nat
  | [] => []
  | v :: rest =>
    let v1 := v % 2^32
    let v2 := v / 2^32 % 2^32
    (fastSwap32 v2 + fastSwap32 v1 * 2^32) :: swapLongs rest

/-! ### Basic byte lemmas -/

theorem byte_lt (v i : Nat) : byte v i < 2^8 := Nat.mod_lt _ (by norm_num)

theorem byte_div_pow (v i j : Nat) : byte (v / 2^(8*j)) i = byte v (i + j) := by
  unfold byte
  rw [Nat.div_div_eq_div_mul, ← pow_add]
  congr 2
  ring

theorem byte_mod_pow (v i j : Nat) (h : i < j) : byte (v % 2^(8*j)) i = byte v i := by
  unfold byte
  have hj : 8*j = 8*i + 8*(j-i) := by omega
  rw [hj, pow_add, Nat.mod_mul_right_div_self, Nat.mod_mod_of_dvd]
  exact pow_dvd_pow 2 (by omega)

theorem bswap_16_lt (v : Nat) : bswap_16 v < 2^16 := by
  have l0 := byte_lt v 0
  have l1 := byte_lt v 1
  unfold bswap_16
  omega

theorem bswap_32_lt (v : Nat) : bswap_32 v < 2^32 := by
  have l0 := byte_lt v 0
  have l1 := byte_lt v 1
  have l2 := byte_lt v 2
  have l3 := byte_lt v 3
  unfold bswap_32
  omega

theorem bswap_64_lt (v : Nat) : bswap_64 v < 2^64 := by
  have l0 := byte_lt v 0
  have l1 := byte_lt v 1
  have l2 := byte_lt v 2
  have l3 := byte_lt v 3
  have l4 := byte_lt v 4
  have l5 := byte_lt v 5
  have l6 := byte_lt v 6
  have l7 := byte_lt v 7
  unfold bswap_64
  omega

theorem bswap_16_involutive (v : Nat) (h : v < 2^16) : bswap_16 (bswap_16 v) = v := by
  have h0 : byte v 0 = v % 256 := by unfold byte; norm_num
  have h1 : byte v 1 = v / 256 % 256 := by unfold byte; norm_num
  unfold bswap_16
  rw [h0, h1]
  have e1 : byte (v % 256 * 2^8 + v / 256 % 256) 0 = v / 256 % 256 := by
    unfold byte; norm_num; omega
  have e2 : byte (v % 256 * 2^8 + v / 256 % 256) 1 = v % 256 := by
    unfold byte; norm_num; omega
  rw [e1, e2]
  omega

/-- Little-endian reconstruction of a 32-bit value from its bytes. -/
theorem bytes_sum_32 (v : Nat) (h : v < 2^32) :
    v % 2^8 + v / 2^8 % 2^8 * 2^8 + v / 2^16 % 2^8 * 2^16 + v / 2^24 * 2^24 = v := by
  have s1 : v / 2^8 = v / 2^8 % 2^8 + v / 2^16 * 2^8 := by
    have t : v / 2^8 / 2^8 = v / 2^16 := by rw [Nat.div_div_eq_div_mul]; norm_num
    omega
  have s2 : v / 2^16 = v / 2^16 % 2^8 + v / 2^24 * 2^8 := by
    have t : v / 2^16 / 2^8 = v / 2^24 := by rw [Nat.div_div_eq_div_mul]; norm_num
    omega
  omega

/-- Little-endian reconstruction of a 64-bit value from its bytes. -/
theorem bytes_sum_64 (v : Nat) (h : v < 2^64) :
    v % 2^8 + v / 2^8 % 2^8 * 2^8 + v / 2^16 % 2^8 * 2^16 + v / 2^24 % 2^8 * 2^24
      + v / 2^32 % 2^8 * 2^32 + v / 2^40 % 2^8 * 2^40 + v / 2^48 % 2^8 * 2^48
      + v / 2^56 * 2^56 = v := by
  have s1 : v / 2^8 = v / 2^8 % 2^8 + v / 2^16 * 2^8 := by
    have t : v / 2^8 / 2^8 = v / 2^16 := by rw [Nat.div_div_eq_div_mul]; norm_num
    omega
  have s2 : v / 2^16 = v / 2^16 % 2^8 + v / 2^24 * 2^8 := by
    have t : v / 2^16 / 2^8 = v / 2^24 := by rw [Nat.div_div_eq_div_mul]; norm_num
    omega
  have s3 : v / 2^24 = v / 2^24 % 2^8 + v / 2^32 * 2^8 := by
    have t : v / 2^24 / 2^8 = v / 2^32 := by rw [Nat.div_div_eq_div_mul]; norm_num
    omega
  have s4 : v / 2^32 = v / 2^32 % 2^8 + v / 2^40 * 2^8 := by
    have t : v / 2^32 / 2^8 = v / 2^40 := by rw [Nat.div_div_eq_div_mul]; norm_num
    omega
  have s5 : v / 2^40 = v / 2^40 % 2^8 + v / 2^48 * 2^8 := by
    have t : v / 2^40 / 2^8 = v / 2^48 := by rw [Nat.div_div_eq_div_mul]; norm_num
    omega
  have s6 : v / 2^48 = v / 2^48 % 2^8 + v / 2^56 * 2^8 := by
    have t : v / 2^48 / 2^8 = v / 2^56 := by rw [Nat.div_div_eq_div_mul]; norm_num
    omega
  omega

/-- `bswap_32` on a value given by its little-endian bytes. -/
theorem bswap_32_bytes (b0 b1 b2 b3 : Nat) (h0 : b0 < 2^8) (h1 : b1 < 2^8)
    (h2 : b2 < 2^8) (h3 : b3 < 2^8) :
    bswap_32 (b0 + b1 * 2^8 + b2 * 2^16 + b3 * 2^24)
      = b3 + b2 * 2^8 + b1 * 2^16 + b0 * 2^24 := by
  unfold bswap_32 byte
  rw [show (2:Nat)^(8*0) = 1 from by norm_num, show (2:Nat)^(8*1) = 2^8 from by norm_num,
    show (2:Nat)^(8*2) = 2^16 from by norm_num, show (2:Nat)^(8*3) = 2^24 from by norm_num,
    Nat.div_one]
  have d1 : (b0 + b1 * 2^8 + b2 * 2^16 + b3 * 2^24) / 2^8 = b1 + b2 * 2^8 + b3 * 2^16 := by
    omega
  have d2 : (b0 + b1 * 2^8 + b2 * 2^16 + b3 * 2^24) / 2^16 = b2 + b3 * 2^8 := by omega
  have d3 : (b0 + b1 * 2^8 + b2 * 2^16 + b3 * 2^24) / 2^24 = b3 := by omega
  rw [d1, d2, d3]
  omega

set_option maxHeartbeats 1000000 in
/-- `bswap_64` on a value given by its little-endian bytes. -/
theorem bswap_64_bytes (b0 b1 b2 b3 b4 b5 b6 b7 : Nat) (h0 : b0 < 2^8) (h1 : b1 < 2^8)
    (h2 : b2 < 2^8) (h3 : b3 < 2^8) (h4 : b4 < 2^8) (h5 : b5 < 2^8) (h6 : b6 < 2^8)
    (h7 : b7 < 2^8) :
    bswap_64 (b0 + b1 * 2^8 + b2 * 2^16 + b3 * 2^24 + b4 * 2^32 + b5 * 2^40 + b6 * 2^48
        + b7 * 2^56)
      = b7 + b6 * 2^8 + b5 * 2^16 + b4 * 2^24 + b3 * 2^32 + b2 * 2^40 + b1 * 2^48
        + b0 * 2^56 := by
  unfold bswap_64 byte
  rw [show (2:Nat)^(8*0) = 1 from by norm_num, show (2:Nat)^(8*1) = 2^8 from by norm_num,
    show (2:Nat)^(8*2) = 2^16 from by norm_num, show (2:Nat)^(8*3) = 2^24 from by norm_num,
    show (2:Nat)^(8*4) = 2^32 from by norm_num, show (2:Nat)^(8*5) = 2^40 from by norm_num,
    show (2:Nat)^(8*6) = 2^48 from by norm_num, show (2:Nat)^(8*7) = 2^56 from by norm_num,
    Nat.div_one]
  have d1 : (b0 + b1 * 2^8 + b2 * 2^16 + b3 * 2^24 + b4 * 2^32 + b5 * 2^40 + b6 * 2^48
      + b7 * 2^56) / 2^8
      = b1 + b2 * 2^8 + b3 * 2^16 + b4 * 2^24 + b5 * 2^32 + b6 * 2^40 + b7 * 2^48 := by
    omega
  have d2 : (b0 + b1 * 2^8 + b2 * 2^16 + b3 * 2^24 + b4 * 2^32 + b5 * 2^40 + b6 * 2^48
      + b7 * 2^56) / 2^16
      = b2 + b3 * 2^8 + b4 * 2^16 + b5 * 2^24 + b6 * 2^32 + b7 * 2^40 := by omega
  have d3 : (b0 + b1 * 2^8 + b2 * 2^16 + b3 * 2^24 + b4 * 2^32 + b5 * 2^40 + b6 * 2^48
      + b7 * 2^56) / 2^24
      = b3 + b4 * 2^8 + b5 * 2^16 + b6 * 2^24 + b7 * 2^32 := by omega
  have d4 : (b0 + b1 * 2^8 + b2 * 2^16 + b3 * 2^24 + b4 * 2^32 + b5 * 2^40 + b6 * 2^48
      + b7 * 2^56) / 2^32
      = b4 + b5 * 2^8 + b6 * 2^16 + b7 * 2^24 := by omega
  have d5 : (b0 + b1 * 2^8 + b2 * 2^16 + b3 * 2^24 + b4 * 2^32 + b5 * 2^40 + b6 * 2^48
      + b7 * 2^56) / 2^40
      = b5 + b6 * 2^8 + b7 * 2^16 := by omega
  have d6 : (b0 + b1 * 2^8 + b2 * 2^16 + b3 * 2^24 + b4 * 2^32 + b5 * 2^40 + b6 * 2^48
      + b7 * 2^56) / 2^48
      = b6 + b7 * 2^8 := by omega
  have d7 : (b0 + b1 * 2^8 + b2 * 2^16 + b3 * 2^24 + b4 * 2^32 + b5 * 2^40 + b6 * 2^48
      + b7 * 2^56) / 2^56
      = b7 := by omega
  rw [d1, d2, d3, d4, d5, d6, d7]
  omega

theorem bswap_32_involutive (v : Nat) (h : v < 2^32) : bswap_32 (bswap_32 v) = v := by
  have hs := bytes_sum_32 v h
  have h0 : v % 2^8 < 2^8 := by omega
  have h1 : v / 2^8 % 2^8 < 2^8 := by omega
  have h2 : v / 2^16 % 2^8 < 2^8 := by omega
  have h3 : v / 2^24 < 2^8 := by omega
  calc bswap_32 (bswap_32 v)
      = bswap_32 (bswap_32 (v % 2^8 + v / 2^8 % 2^8 * 2^8 + v / 2^16 % 2^8 * 2^16
          + v / 2^24 * 2^24)) := by rw [hs]
    _ = bswap_32 (v / 2^24 + v / 2^16 % 2^8 * 2^8 + v / 2^8 % 2^8 * 2^16
          + v % 2^8 * 2^24) := by rw [bswap_32_bytes _ _ _ _ h0 h1 h2 h3]
    _ = v % 2^8 + v / 2^8 % 2^8 * 2^8 + v / 2^16 % 2^8 * 2^16 + v / 2^24 * 2^24 := by
          rw [bswap_32_bytes _ _ _ _ h3 h2 h1 h0]
    _ = v := hs

theorem bswap_64_involutive (v : Nat) (h : v < 2^64) : bswap_64 (bswap_64 v) = v := by
  have hs := bytes_sum_64 v h
  have h0 : v % 2^8 < 2^8 := by omega
  have h1 : v / 2^8 % 2^8 < 2^8 := by omega
  have h2 : v / 2^16 % 2^8 < 2^8 := by omega
  have h3 : v / 2^24 % 2^8 < 2^8 := by omega
  have h4 : v / 2^32 % 2^8 < 2^8 := by omega
  have h5 : v / 2^40 % 2^8 < 2^8 := by omega
  have h6 : v / 2^48 % 2^8 < 2^8 := by omega
  have h7 : v / 2^56 < 2^8 := by omega
  calc bswap_64 (bswap_64 v)
      = bswap_64 (bswap_64 (v % 2^8 + v / 2^8 % 2^8 * 2^8 + v / 2^16 % 2^8 * 2^16
          + v / 2^24 % 2^8 * 2^24 + v / 2^32 % 2^8 * 2^32 + v / 2^40 % 2^8 * 2^40
          + v / 2^48 % 2^8 * 2^48 + v / 2^56 * 2^56)) := by rw [hs]
    _ = bswap_64 (v / 2^56 + v / 2^48 % 2^8 * 2^8 + v / 2^40 % 2^8 * 2^16
          + v / 2^32 % 2^8 * 2^24 + v / 2^24 % 2^8 * 2^32 + v / 2^16 % 2^8 * 2^40
          + v / 2^8 % 2^8 * 2^48 + v % 2^8 * 2^56) := by
          rw [bswap_64_bytes _ _ _ _ _ _ _ _ h0 h1 h2 h3 h4 h5 h6 h7]
    _ = v % 2^8 + v / 2^8 % 2^8 * 2^8 + v / 2^16 % 2^8 * 2^16 + v / 2^24 % 2^8 * 2^24
          + v / 2^32 % 2^8 * 2^32 + v / 2^40 % 2^8 * 2^40 + v / 2^48 % 2^8 * 2^48
          + v / 2^56 * 2^56 := by
          rw [bswap_64_bytes _ _ _ _ _ _ _ _ h7 h6 h5 h4 h3 h2 h1 h0]
    _ = v := hs

/-! ### swapShorts / swapInts / swapLongs characterizations -/

theorem bswap_16_mod (s : Nat) : bswap_16 (s % 2^16) = bswap_16 s := by
  unfold bswap_16
  rw [show (2:Nat)^16 = 2^(8*2) from by norm_num, byte_mod_pow s 0 2 (by omega),
    byte_mod_pow s 1 2 (by omega)]

/-- The combined 32-bit swap-and-shuffle on a packed pair of 16-bit values
produces the two 16-bit swaps, packed. -/
theorem swap_pair_core (a b : Nat) (ha : a < 2^16) (hb : b < 2^16) :
    ((fastSwap32 (a + b * 2^16) <<< 16) % 2^32)
        ||| ((fastSwap32 (a + b * 2^16) >>> 16) &&& 0xffff)
      = bswap_16 b * 2^16 + bswap_16 a := by
  have hb0 : b % 2^8 < 2^8 := by omega
  have hb1 : b / 2^8 < 2^8 := by omega
  have ha0 : a % 2^8 < 2^8 := by omega
  have ha1 : a / 2^8 < 2^8 := by omega
  have hX : a + b * 2^16 = a % 2^8 + a / 2^8 * 2^8 + b % 2^8 * 2^16 + b / 2^8 * 2^24 := by
    omega
  have hvs : fastSwap32 (a + b * 2^16)
      = b / 2^8 + b % 2^8 * 2^8 + a / 2^8 * 2^16 + a % 2^8 * 2^24 := by
    rw [hX]
    unfold fastSwap32
    exact bswap_32_bytes _ _ _ _ ha0 ha1 hb0 hb1
  rw [hvs, Nat.shiftLeft_eq, Nat.shiftRight_eq_div_pow]
  rw [show (2:Nat)^32 = 2^16 * 2^16 from by norm_num, Nat.mul_mod_mul_right]
  rw [show (0xffff:Nat) = 2^16 - 1 from by norm_num, Nat.and_pow_two_sub_one_eq_mod]
  have e1 : (b / 2^8 + b % 2^8 * 2^8 + a / 2^8 * 2^16 + a % 2^8 * 2^24) % 2^16
      = b / 2^8 + b % 2^8 * 2^8 := by omega
  have e2 : (b / 2^8 + b % 2^8 * 2^8 + a / 2^8 * 2^16 + a % 2^8 * 2^24) / 2^16
      = a / 2^8 + a % 2^8 * 2^8 := by omega
  rw [e1, e2]
  have e3 : (a / 2^8 + a % 2^8 * 2^8) % 2^16 = a / 2^8 + a % 2^8 * 2^8 := by omega
  rw [e3]
  have e4 : (b / 2^8 + b % 2^8 * 2^8) * 2^16 = 2^16 * (b / 2^8 + b % 2^8 * 2^8) := by ring
  rw [e4, ← Nat.mul_add_lt_is_or (by omega : a / 2^8 + a % 2^8 * 2^8 < 2^16)]
  have hba : bswap_16 a = a % 2^8 * 2^8 + a / 2^8 := by
    unfold bswap_16 byte
    norm_num
    have : a / 2^8 < 2^8 := by omega
    omega
  have hbb : bswap_16 b = b % 2^8 * 2^8 + b / 2^8 := by
    unfold bswap_16 byte
    norm_num
    have : b / 2^8 < 2^8 := by omega
    omega
  rw [hba, hbb]
  ring

theorem swapShorts_cons_cons (s0 s1 : Nat) (rest : List Nat) :
    swapShorts (s0 :: s1 :: rest) = fastSwap16 s0 :: fastSwap16 s1 :: swapShorts rest := by
  have hpair := swap_pair_core (s0 % 2^16) (s1 % 2^16)
    (Nat.mod_lt _ (by norm_num)) (Nat.mod_lt _ (by norm_num))
  have l0 := bswap_16_lt s0
  have l1 := bswap_16_lt s1
  show ((fastSwap32 (s0 % 2^16 + s1 % 2^16 * 2^16) <<< 16) % 2^32
        ||| ((fastSwap32 (s0 % 2^16 + s1 % 2^16 * 2^16) >>> 16) &&& 0xffff)) % 2^16
      :: ((fastSwap32 (s0 % 2^16 + s1 % 2^16 * 2^16) <<< 16) % 2^32
        ||| ((fastSwap32 (s0 % 2^16 + s1 % 2^16 * 2^16) >>> 16) &&& 0xffff)) / 2^16
      :: swapShorts rest
      = fastSwap16 s0 :: fastSwap16 s1 :: swapShorts rest
  rw [hpair, bswap_16_mod, bswap_16_mod]
  have q1 : (bswap_16 s1 * 2^16 + bswap_16 s0) % 2^16 = bswap_16 s0 := by omega
  have q2 : (bswap_16 s1 * 2^16 + bswap_16 s0) / 2^16 = bswap_16 s1 := by omega
  rw [q1, q2]
  rfl

/-- `swapShorts` is observably identical to swapping each element independently. -/
theorem swapShorts_eq_map : ∀ l : List Nat, swapShorts l = l.map fastSwap16
  | [] => rfl
  | [_] => rfl
  | s0 :: s1 :: rest => by
    rw [swapShorts_cons_cons, swapShorts_eq_map rest]
    rfl

theorem swapInts_eq_map : ∀ l : List Nat,
    swapInts l = l.map (fun v => fastSwap32 (v % 2^32))
  | [] => rfl
  | v :: rest => by
    show fastSwap32 (v % 2^32) :: swapInts rest = _
    rw [swapInts_eq_map rest]
    rfl

/-- A `swapLongs` element step equals the 64-bit byte reversal of the (truncated)
long value. -/
theorem swapLong_scalar (v : Nat) :
    fastSwap32 (v / 2^32 % 2^32) + fastSwap32 (v % 2^32) * 2^32 = bswap_64 (v % 2^64) := by
  unfold fastSwap32 bswap_32 bswap_64
  have g : ∀ i, i < 4 → byte (v / 2^32 % 2^32) i = byte v (i + 4) := by
    intro i hi
    rw [show (2:Nat)^32 = 2^(8*4) from by norm_num, byte_mod_pow _ i 4 hi, byte_div_pow]
  have g2 : ∀ i, i < 4 → byte (v % 2^32) i = byte v i := by
    intro i hi
    rw [show (2:Nat)^32 = 2^(8*4) from by norm_num, byte_mod_pow _ i 4 hi]
  have g3 : ∀ i, i < 8 → byte (v % 2^64) i = byte v i := by
    intro i hi
    rw [show (2:Nat)^64 = 2^(8*8) from by norm_num, byte_mod_pow _ i 8 hi]
  rw [g 0 (by norm_num), g 1 (by norm_num), g 2 (by norm_num), g 3 (by norm_num),
    g2 0 (by norm_num), g2 1 (by norm_num), g2 2 (by norm_num), g2 3 (by norm_num),
    g3 0 (by norm_num), g3 1 (by norm_num), g3 2 (by norm_num), g3 3 (by norm_num),
    g3 4 (by norm_num), g3 5 (by norm_num), g3 6 (by norm_num), g3 7 (by norm_num)]
  norm_num
  ring

theorem swapLongs_eq_map : ∀ l : List Nat,
    swapLongs l = l.map (fun v => bswap_64 (v % 2^64))
  | [] => rfl
  | v :: rest => by
    show (fastSwap32 (v / 2^32 % 2^32) + fastSwap32 (v % 2^32) * 2^32) :: swapLongs rest = _
    rw [swapLongs_eq_map rest, swapLong_scalar]
    rfl

/-! ### Byte-addressed memory -/

/-- Native memory: a byte per address.  Stored values are kept below `2^8` by
`writeByte`. -/
def Mem : Type := Nat → Nat

/-- Read one byte (a `jbyte` load through a pointer cast). -/
def readByte (m : Mem) (a : Nat) : Nat := m a % 2^8

/-- Write one byte (a `jbyte` store through a pointer cast). -/
def writeByte (m : Mem) (a v : Nat) : Mem := fun x => if x = a then v % 2^8 else m x

/-- Little-endian load of `n` bytes starting at `a` (the value of a direct
`n`-byte scalar load on a little-endian machine). -/
def readLE (m : Mem) : Nat → Nat → Nat
  | _, 0 => 0
  | a, n+1 => readByte m a + readLE m (a+1) n * 2^8

/-- Little-endian store of the low `n` bytes of `v` starting at `a` (a direct
`n`-byte scalar store on a little-endian machine). -/
def writeLE : Mem → Nat → Nat → Nat → Mem
  | m, _, 0, _ => m
  | m, a, n+1, v => writeLE (writeByte m a v) (a+1) n (v / 2^8)

theorem writeLE_apply (n : Nat) : ∀ (m : Mem) (a v x : Nat),
    writeLE m a n v x = if a ≤ x ∧ x < a + n then byte v (x - a) else m x := by
  induction n with
  | zero =>
    intro m a v x
    show m x = if a ≤ x ∧ x < a + 0 then byte v (x - a) else m x
    have h : ¬(a ≤ x ∧ x < a + 0) := by omega
    rw [if_neg h]
  | succ n ih =>
    intro m a v x
    show writeLE (writeByte m a v) (a+1) n (v / 2^8) x = _
    rw [ih]
    by_cases h1 : a + 1 ≤ x ∧ x < a + 1 + n
    · have h2 : a ≤ x ∧ x < a + (n+1) := by omega
      simp only [if_pos h1, if_pos h2]
      rw [show v / 2^8 = v / 2^(8*1) from by norm_num, byte_div_pow,
        show x - (a+1) + 1 = x - a from by omega]
    · rw [if_neg h1]
      by_cases h3 : x = a
      · have h4 : a ≤ x ∧ x < a + (n+1) := by omega
        rw [if_pos h4]
        show (if x = a then v % 2^8 else m x) = byte v (x - a)
        rw [if_pos h3, h3]
        unfold byte
        norm_num
      · have h4 : ¬(a ≤ x ∧ x < a + (n+1)) := by omega
        rw [if_neg h4]
        show (if x = a then v % 2^8 else m x) = m x
        rw [if_neg h3]

theorem writeLE_out (n : Nat) (m : Mem) (a v x : Nat) (h : x < a ∨ a + n ≤ x) :
    writeLE m a n v x = m x := by
  rw [writeLE_apply]
  have : ¬(a ≤ x ∧ x < a + n) := by omega
  rw [if_neg this]

theorem readLE_writeLE (n : Nat) : ∀ (m : Mem) (a v : Nat),
    readLE (writeLE m a n v) a n = v % 2^(8*n) := by
  induction n with
  | zero =>
    intro m a v
    show (0:Nat) = v % 2^(8*0)
    rw [show (2:Nat)^(8*0) = 1 from by norm_num, Nat.mod_one]
  | succ n ih =>
    intro m a v
    show readByte (writeLE m a (n+1) v) a
        + readLE (writeLE m a (n+1) v) (a+1) n * 2^8 = v % 2^(8*(n+1))
    have hb : readByte (writeLE m a (n+1) v) a = v % 2^8 := by
      unfold readByte
      rw [writeLE_apply]
      have : a ≤ a ∧ a < a + (n+1) := by omega
      rw [if_pos this]
      unfold byte
      norm_num
    have hr : readLE (writeLE m a (n+1) v) (a+1) n = v / 2^8 % 2^(8*n) := by
      show readLE (writeLE (writeByte m a v) (a+1) n (v / 2^8)) (a+1) n = _
      exact ih _ _ _
    rw [hb, hr, show 8*(n+1) = 8 + 8*n from by ring, pow_add, Nat.mod_mul]
    ring

theorem readLE_congr (n : Nat) : ∀ (m₁ m₂ : Mem) (a : Nat),
    (∀ i, i < n → m₁ (a + i) = m₂ (a + i)) → readLE m₁ a n = readLE m₂ a n := by
  induction n with
  | zero => intro m₁ m₂ a _; rfl
  | succ n ih =>
    intro m₁ m₂ a hag
    show readByte m₁ a + readLE m₁ (a+1) n * 2^8
        = readByte m₂ a + readLE m₂ (a+1) n * 2^8
    have h0 : readByte m₁ a = readByte m₂ a := by
      unfold readByte
      rw [show a = a + 0 from by omega]
      rw [hag 0 (by omega)]
    have h1 : readLE m₁ (a+1) n = readLE m₂ (a+1) n := by
      apply ih
      intro i hi
      rw [show a + 1 + i = a + (1 + i) from by ring]
      exact hag (1 + i) (by omega)
    rw [h0, h1]

theorem readLE_lt (n : Nat) : ∀ (m : Mem) (a : Nat), readLE m a n < 2^(8*n) := by
  induction n with
  | zero => intro m a; show (0:Nat) < 2^(8*0); norm_num
  | succ n ih =>
    intro m a
    show readByte m a + readLE m (a+1) n * 2^8 < 2^(8*(n+1))
    have h1 : readByte m a < 2^8 := Nat.mod_lt _ (by norm_num)
    have h2 : readLE m (a+1) n < 2^(8*n) := ih m (a+1)
    have h3 : (2:Nat)^(8*(n+1)) = 2^(8*n) * 2^8 := by
      ring
    rw [h3]
    calc readByte m a + readLE m (a+1) n * 2^8
        < 2^8 + readLE m (a+1) n * 2^8 := by omega
      _ ≤ 2^8 + (2^(8*n) - 1) * 2^8 := by
          have : readLE m (a+1) n ≤ 2^(8*n) - 1 := by omega
          have := Nat.mul_le_mul_right (2^8) this
          omega
      _ ≤ 2^(8*n) * 2^8 := by
          have h4 : (1:Nat) ≤ 2^(8*n) := Nat.one_le_two_pow
          have : (2^(8*n) - 1) * 2^8 + 1 * 2^8 = 2^(8*n) * 2^8 := by
            rw [← Nat.add_mul]
            congr 1
            omega
          omega

/-! ### AddressSpaceAccessor: scalar peek/poke (OSMemory_peekX / OSMemory_pokeX) -/

/-- `OSMemory_peekByte`: `return *cast<const jbyte*>(srcAddress);` -/
def OSMemory_peekByte (m : Mem) (srcAddress : Nat) : Nat := readByte m srcAddress

/-- `OSMemory_pokeByte`: `*cast<jbyte*>(dstAddress) = value;` -/
def OSMemory_pokeByte (m : Mem) (dstAddress value : Nat) : Mem :=
  writeByte m dstAddress value

/-- `OSMemory_peekShort`: 16-bit load, then `fastSwap16` if `swap`. -/
def OSMemory_peekShort (m : Mem) (srcAddress : Nat) (swap : Bool) : Nat :=
  let result := readLE m srcAddress 2
  if swap then fastSwap16 result else result

/-- `OSMemory_pokeShort`: `fastSwap16` the value if `swap`, then 16-bit store. -/
def OSMemory_pokeShort (m : Mem) (dstAddress value : Nat) (swap : Bool) : Mem :=
  writeLE m dstAddress 2 (if swap then fastSwap16 value else value)

/-- `OSMemory_peekInt`: 32-bit load, then `fastSwap32` if `swap`. -/
def OSMemory_peekInt (m : Mem) (srcAddress : Nat) (swap : Bool) : Nat :=
  let result := readLE m srcAddress 4
  if swap then fastSwap32 result else result

/-- `OSMemory_pokeInt`: `fastSwap32` the value if `swap`, then 32-bit store. -/
def OSMemory_pokeInt (m : Mem) (dstAddress value : Nat) (swap : Bool) : Mem :=
  writeLE m dstAddress 4 (if swap then fastSwap32 value else value)

/-- `LONG_ALIGNMENT_MASK` on 32-bit ARM (load/store alignment restriction). -/
def LONG_ALIGNMENT_MASK_ARM : Nat := 0x3

/-- `LONG_ALIGNMENT_MASK` on x86 (no restriction). -/
def LONG_ALIGNMENT_MASK_X86 : Nat := 0x0

/-- `OSMemory_peekLong`, parameterized by the platform's `LONG_ALIGNMENT_MASK`:
if the address passes the alignment test, a direct 64-bit load; otherwise the
eight bytes are copied one at a time into the result buffer (little-endian
reassembly); then `bswap_64` if `swap`. -/
def OSMemory_peekLong (longAlignmentMask : Nat) (m : Mem) (srcAddress : Nat)
    (swap : Bool) : Nat :=
  let result :=
    if srcAddress &&& longAlignmentMask = 0 then
      readLE m srcAddress 8
    else
      readByte m srcAddress
      + readByte m (srcAddress + 1) * 2^8
      + readByte m (srcAddress + 2) * 2^16
      + readByte m (srcAddress + 3) * 2^24
      + readByte m (srcAddress + 4) * 2^32
      + readByte m (srcAddress + 5) * 2^40
      + readByte m (srcAddress + 6) * 2^48
      + readByte m (srcAddress + 7) * 2^56
  if swap then bswap_64 result else result

/-- `OSMemory_pokeLong`, parameterized by the platform's `LONG_ALIGNMENT_MASK`:
`bswap_64` the value if `swap`; then a direct 64-bit store if the address
passes the alignment test, otherwise eight single-byte stores. -/
def OSMemory_pokeLong (longAlignmentMask : Nat) (m : Mem) (dstAddress value : Nat)
    (swap : Bool) : Mem :=
  let value := if swap then bswap_64 value else value
  if dstAddress &&& longAlignmentMask = 0 then
    writeLE m dstAddress 8 value
  else
    writeByte (writeByte (writeByte (writeByte (writeByte (writeByte (writeByte (writeByte
      m dstAddress (byte value 0))
      (dstAddress + 1) (byte value 1))
      (dstAddress + 2) (byte value 2))
      (dstAddress + 3) (byte value 3))
      (dstAddress + 4) (byte value 4))
      (dstAddress + 5) (byte value 5))
      (dstAddress + 6) (byte value 6))
      (dstAddress + 7) (byte value 7)

theorem readLE_eight (m : Mem) (a : Nat) :
    readLE m a 8
      = readByte m a + (readByte m (a+1) + (readByte m (a+2) + (readByte m (a+3)
        + (readByte m (a+4) + (readByte m (a+5) + (readByte m (a+6) + (readByte m (a+7)
        + 0 * 2^8) * 2^8) * 2^8) * 2^8) * 2^8) * 2^8) * 2^8) * 2^8 := rfl

/-- The byte-at-a-time reassembly in the misaligned `peekLong` path produces
exactly the value of a direct little-endian 64-bit load. -/
theorem peekLong_bytes_eq_readLE (m : Mem) (a : Nat) :
    readByte m a + readByte m (a + 1) * 2^8 + readByte m (a + 2) * 2^16
      + readByte m (a + 3) * 2^24 + readByte m (a + 4) * 2^32 + readByte m (a + 5) * 2^40
      + readByte m (a + 6) * 2^48 + readByte m (a + 7) * 2^56
    = readLE m a 8 := by
  rw [readLE_eight]
  ring

/-- The eight single-byte stores in the misaligned `pokeLong` path produce
exactly the memory of a direct little-endian 64-bit store. -/
theorem pokeLong_bytes_eq_writeLE (m : Mem) (a v : Nat) :
    writeByte (writeByte (writeByte (writeByte (writeByte (writeByte (writeByte (writeByte
      m a (byte v 0))
      (a + 1) (byte v 1))
      (a + 2) (byte v 2))
      (a + 3) (byte v 3))
      (a + 4) (byte v 4))
      (a + 5) (byte v 5))
      (a + 6) (byte v 6))
      (a + 7) (byte v 7)
    = writeLE m a 8 v := by
  funext x
  rw [writeLE_apply]
  simp only [writeByte]
  by_cases h : a ≤ x ∧ x < a + 8
  · rw [if_pos h]
    obtain ⟨k, hk, rfl⟩ : ∃ k, k < 8 ∧ x = a + k := ⟨x - a, by omega, by omega⟩
    interval_cases k <;>
      simp [Nat.add_right_cancel_iff, Nat.mod_eq_of_lt] <;>
      exact byte_lt v _
  · rw [if_neg h]
    rw [if_neg (show ¬x = a + 7 from by omega), if_neg (show ¬x = a + 6 from by omega),
      if_neg (show ¬x = a + 5 from by omega), if_neg (show ¬x = a + 4 from by omega),
      if_neg (show ¬x = a + 3 from by omega), if_neg (show ¬x = a + 2 from by omega),
      if_neg (show ¬x = a + 1 from by omega), if_neg (show ¬x = a from by omega)]

/-- Both `peekLong` paths (direct and byte-at-a-time) read the same value:
`peekLong` does not depend on which alignment branch was taken. -/
theorem OSMemory_peekLong_eq (longAlignmentMask : Nat) (m : Mem) (srcAddress : Nat)
    (swap : Bool) :
    OSMemory_peekLong longAlignmentMask m srcAddress swap
      = if swap then bswap_64 (readLE m srcAddress 8) else readLE m srcAddress 8 := by
  unfold OSMemory_peekLong
  by_cases h : srcAddress &&& longAlignmentMask = 0
  · rw [if_pos h]
  · rw [if_neg h, peekLong_bytes_eq_readLE]

/-- Both `pokeLong` paths (direct and byte-at-a-time) store the same bytes:
`pokeLong` does not depend on which alignment branch was taken. -/
theorem OSMemory_pokeLong_eq (longAlignmentMask : Nat) (m : Mem) (dstAddress value : Nat)
    (swap : Bool) :
    OSMemory_pokeLong longAlignmentMask m dstAddress value swap
      = writeLE m dstAddress 8 (if swap then bswap_64 value else value) := by
  unfold OSMemory_pokeLong
  by_cases h : dstAddress &&& longAlignmentMask = 0
  · rw [if_pos h]
  · rw [if_neg h, pokeLong_bytes_eq_writeLE]

theorem fastSwap16_lt (v : Nat) : fastSwap16 v < 2^16 := bswap_16_lt v

theorem fastSwap32_lt (v : Nat) : fastSwap32 v < 2^32 := bswap_32_lt v

theorem fastSwap16_involutive (v : Nat) (h : v < 2^16) : fastSwap16 (fastSwap16 v) = v :=
  bswap_16_involutive v h

theorem fastSwap32_involutive (v : Nat) (h : v < 2^32) : fastSwap32 (fastSwap32 v) = v :=
  bswap_32_involutive v h

theorem pokeShort_peekShort_roundtrip (m : Mem) (a v : Nat) (s : Bool) (h : v < 2^16) :
    OSMemory_peekShort (OSMemory_pokeShort m a v s) a s = v := by
  unfold OSMemory_pokeShort OSMemory_peekShort
  have hr : ∀ w, readLE (writeLE m a 2 w) a 2 = w % 2^16 := by
    intro w
    rw [readLE_writeLE]
  cases s with
  | false =>
    simp only [Bool.false_eq_true, if_false]
    rw [hr, Nat.mod_eq_of_lt h]
  | true =>
    simp only [if_true]
    rw [hr, Nat.mod_eq_of_lt (fastSwap16_lt v)]
    exact fastSwap16_involutive v h

theorem pokeInt_peekInt_roundtrip (m : Mem) (a v : Nat) (s : Bool) (h : v < 2^32) :
    OSMemory_peekInt (OSMemory_pokeInt m a v s) a s = v := by
  unfold OSMemory_pokeInt OSMemory_peekInt
  have hr : ∀ w, readLE (writeLE m a 4 w) a 4 = w % 2^32 := by
    intro w
    rw [readLE_writeLE]
  cases s with
  | false =>
    simp only [Bool.false_eq_true, if_false]
    rw [hr, Nat.mod_eq_of_lt h]
  | true =>
    simp only [if_true]
    rw [hr, Nat.mod_eq_of_lt (fastSwap32_lt v)]
    exact fastSwap32_involutive v h

theorem pokeLong_peekLong_roundtrip (longAlignmentMask : Nat) (m : Mem) (a v : Nat)
    (s : Bool) (h : v < 2^64) :
    OSMemory_peekLong longAlignmentMask
      (OSMemory_pokeLong longAlignmentMask m a v s) a s = v := by
  rw [OSMemory_pokeLong_eq, OSMemory_peekLong_eq]
  have hr : ∀ w, readLE (writeLE m a 8 w) a 8 = w % 2^64 := by
    intro w
    rw [readLE_writeLE]
  cases s with
  | false =>
    simp only [Bool.false_eq_true, if_false]
    rw [hr, Nat.mod_eq_of_lt h]
  | true =>
    simp only [if_true]
    rw [hr, Nat.mod_eq_of_lt (bswap_64_lt v)]
    exact bswap_64_involutive v h

/-! ### AllocationTracker: OSMemory_malloc / OSMemory_free -/

/-- `calloc(n, 1)`: the returned block of `n` bytes is zero-initialized. -/
def zeroRange (m : Mem) (a n : Nat) : Mem :=
  fun x => if a ≤ x ∧ x < a + n then 0 else m x

/-- Result of `OSMemory_malloc`: either an `OutOfMemoryError` was thrown (with
`0` returned and memory untouched), distinguishing the two failure points, or
the address just past the size header is returned. -/
inductive MallocOutcome
  | oomAdmissionDenied
  | oomCallocFailed
  | ok (address : Nat)
deriving DecidableEq

/-- `OSMemory_malloc`: ask the VMRuntime accounting authority
(`trackExternalAllocation`) to track `size` bytes; if refused, throw
`OutOfMemoryError` and return 0.  Otherwise `calloc(size + sizeof(jlong), 1)`
(modelled by the oracle `callocBlock`: `none` is allocation failure, `some
block` a fresh zeroed block); on failure throw `OutOfMemoryError` and return 0.
On success write `size` into the first 8 bytes and return the address just
past that header. -/
def OSMemory_malloc (trackExternalAllocation : Nat → Bool) (callocBlock : Option Nat)
    (m : Mem) (size : Nat) : MallocOutcome × Mem :=
  if trackExternalAllocation size then
    match callocBlock with
    | none => (.oomCallocFailed, m)
    | some block =>
      (.ok (block + 8), writeLE (zeroRange m block (size + 8)) block 8 size)
  else (.oomAdmissionDenied, m)

/-- `OSMemory_free`: read the `jlong` size header immediately before `address`,
report it to the accounting authority (`trackExternalFree`), and free the block
starting at the header.  The result is the pair (size reported to
`trackExternalFree`, base address passed to `free`). -/
def OSMemory_free (m : Mem) (address : Nat) : Nat × Nat :=
  (readLE m (address - 8) 8, address - 8)

/-! ### MappedRegionManager: OSMemory_mmapImpl / OSMemory_isLoaded -/

/-- `PROT_READ` on Linux. -/
def PROT_READ : Nat := 1

/-- `PROT_WRITE` on Linux. -/
def PROT_WRITE : Nat := 2

/-- `MAP_SHARED` on Linux. -/
def MAP_SHARED : Nat := 1

/-- `MAP_PRIVATE` on Linux. -/
def MAP_PRIVATE : Nat := 2

/-- `EINVAL` on Linux. -/
def EINVAL : Nat := 22

/-- Result of `OSMemory_mmapImpl`: invalid mode (throws `IOException(EINVAL)`
without calling `mmap`), `mmap` failure (throws `IOException(errno)`), or the
mapped address. -/
inductive MmapResult
  | invalidMode (errno : Nat)
  | syscallFailed (errno : Nat)
  | ok (address : Nat)
deriving DecidableEq

/-- The `jint` value `OSMemory_mmapImpl` returns: `-1` on invalid mode, the
`jint` cast of `MAP_FAILED` (i.e. `-1`) on syscall failure, else the address. -/
def mmapReturnValue : MmapResult → Int
  | .invalidMode _ => -1
  | .syscallFailed _ => -1
  | .ok address => address

/-- `OSMemory_mmapImpl`: translate `mapMode` into protection/sharing flags per
the fixed switch, throwing `IOException(EINVAL)` and returning -1 for any other
mode without invoking `mmap`; invoke `mmap` (the oracle `mmapSys`, `none` =
`MAP_FAILED`, with `failErrno` the observed `errno`); a failure is reported as
`IOException(errno)`. -/
def OSMemory_mmapImpl (mmapSys : Int → Int → Int → Nat → Nat → Option Nat)
    (failErrno : Nat) (fd : Int) (offset size : Int) (mapMode : Int) : MmapResult :=
  if mapMode = 0 then
    match mmapSys fd offset size (PROT_READ ||| PROT_WRITE) MAP_PRIVATE with
    | some mapAddress => .ok mapAddress
    | none => .syscallFailed failErrno
  else if mapMode = 1 then
    match mmapSys fd offset size PROT_READ MAP_SHARED with
    | some mapAddress => .ok mapAddress
    | none => .syscallFailed failErrno
  else if mapMode = 2 then
    match mmapSys fd offset size (PROT_READ ||| PROT_WRITE) MAP_SHARED with
    | some mapAddress => .ok mapAddress
    | none => .syscallFailed failErrno
  else .invalidMode EINVAL

/-- `OSMemory_isLoaded`: `true` for a zero-length range; otherwise round the
address down to a page boundary, extend the length by the alignment offset,
compute the page count, query `mincore` (the oracle `mincoreSys`, `none` = the
syscall returned -1, else the per-page residency vector), and require every
page's vector entry to be 1. -/
def OSMemory_isLoaded (page_size : Nat) (mincoreSys : Nat → Nat → Option (Nat → Nat))
    (address size : Nat) : Bool :=
  if size = 0 then
    true
  else
    let align_offset := address % page_size
    let address' := address - align_offset
    let size' := size + align_offset
    let page_count := (size' + page_size - 1) / page_size
    match mincoreSys address' size' with
    | none => false
    | some vec => (List.range page_count).all (fun i => vec i == 1)

/-! ### BulkArrayTransfer: OSMemory_unsafeArrayCopy -/

/-- Read `count` elements of `sz` bytes each, little-endian, starting at `a`
(the element view a `jshort*`/`jint*`/`jlong*` cast gives on a little-endian
machine). -/
def readElems (m : Mem) (sz : Nat) : Nat → Nat → List Nat
  | _, 0 => []
  | a, count+1 => readLE m a sz :: readElems m sz (a + sz) count

/-- Write a list of `sz`-byte elements, little-endian, starting at `a`. -/
def writeElems (sz : Nat) : Mem → Nat → List Nat → Mem
  | m, _, [] => m
  | m, a, v :: rest => writeElems sz (writeLE m a sz v) (a + sz) rest

/-- `memmove(dst + dstOff, src + srcOff, n)` between two byte spaces
(destination updated byte by byte; source and destination are distinct
objects here, so the copy direction is irrelevant). -/
def memmoveBytes : Mem → Nat → Mem → Nat → Nat → Mem
  | dst, _, _, _, 0 => dst
  | dst, dstOff, src, srcOff, n+1 =>
    memmoveBytes (writeByte dst dstOff (src srcOff)) (dstOff + 1) src (srcOff + 1) n

/-- `OSMemory_unsafeArrayCopy`: pin the source byte array and the destination
array (`srcPinOk` / `dstPinOk` model `ScopedByteArrayRO` /
`GetPrimitiveArrayCritical` succeeding; on failure the function returns with
nothing copied).  With `swap` set, dispatch on `sizeofElement ∈ {2,4,8}` to the
corresponding swap-and-copy routine (destination offset is in bytes, source
offset in elements); any other element size copies nothing.  Without `swap`,
`memmove` the `byteCount` bytes. -/
def OSMemory_unsafeArrayCopy (dstBytes : Mem) (dstOffset byteCount : Nat)
    (srcBytes : Mem) (srcOffset sizeofElement : Nat) (swap : Bool)
    (srcPinOk dstPinOk : Bool) : Mem :=
  if !srcPinOk then
    dstBytes
  else if !dstPinOk then
    dstBytes
  else if swap then
    if sizeofElement = 2 then
      writeElems 2 dstBytes dstOffset
        (swapShorts (readElems srcBytes 2 (srcOffset * 2) (byteCount / 2)))
    else if sizeofElement = 4 then
      writeElems 4 dstBytes dstOffset
        (swapInts (readElems srcBytes 4 (srcOffset * 4) (byteCount / 4)))
    else if sizeofElement = 8 then
      writeElems 8 dstBytes dstOffset
        (swapLongs (readElems srcBytes 8 (srcOffset * 8) (byteCount / 8)))
    else dstBytes
  else
    memmoveBytes dstBytes dstOffset srcBytes (srcOffset * sizeofElement) byteCount

/-! ### List swap involutions -/

theorem swapShorts_involutive (l : List Nat) (hl : ∀ x ∈ l, x < 2^16) :
    swapShorts (swapShorts l) = l := by
  rw [swapShorts_eq_map, swapShorts_eq_map, List.map_map]
  have hc : ∀ x ∈ l, (fastSwap16 ∘ fastSwap16) x = id x := by
    intro x hx
    show fastSwap16 (fastSwap16 x) = x
    exact fastSwap16_involutive x (hl x hx)
  rw [List.map_congr_left hc, List.map_id]

theorem swapInts_involutive (l : List Nat) (hl : ∀ x ∈ l, x < 2^32) :
    swapInts (swapInts l) = l := by
  rw [swapInts_eq_map, swapInts_eq_map, List.map_map]
  have hc : ∀ x ∈ l,
      ((fun v => fastSwap32 (v % 2^32)) ∘ (fun v => fastSwap32 (v % 2^32))) x = id x := by
    intro x hx
    show fastSwap32 (fastSwap32 (x % 2^32) % 2^32) = x
    rw [Nat.mod_eq_of_lt (hl x hx), Nat.mod_eq_of_lt (fastSwap32_lt x)]
    exact fastSwap32_involutive x (hl x hx)
  rw [List.map_congr_left hc, List.map_id]

theorem swapLongs_involutive (l : List Nat) (hl : ∀ x ∈ l, x < 2^64) :
    swapLongs (swapLongs l) = l := by
  rw [swapLongs_eq_map, swapLongs_eq_map, List.map_map]
  have hc : ∀ x ∈ l,
      ((fun v => bswap_64 (v % 2^64)) ∘ (fun v => bswap_64 (v % 2^64))) x = id x := by
    intro x hx
    show bswap_64 (bswap_64 (x % 2^64) % 2^64) = x
    rw [Nat.mod_eq_of_lt (hl x hx), Nat.mod_eq_of_lt (bswap_64_lt x)]
    exact bswap_64_involutive x (hl x hx)
  rw [List.map_congr_left hc, List.map_id]

/-! ### Claim theorems -/

/-- C8: for every source buffer of 16-bit elements with an odd element count,
`swapShorts` — pairs via the combined 32-bit byte-reverse plus half-exchange,
final element swapped individually — is observably identical to swapping each
element independently, and output length equals input length. -/
theorem C8_swapShorts_refines_elementwise (l : List Nat) (hodd : l.length % 2 = 1) :
    swapShorts l = l.map fastSwap16 ∧ (swapShorts l).length = l.length := by
  refine ⟨swapShorts_eq_map l, ?_⟩
  rw [swapShorts_eq_map l, List.length_map]

theorem C8_swapShorts_refines_elementwise_witness :
    ([0x0102, 0xA1B2, 0x0304] : List Nat).length % 2 = 1
    ∧ (swapShorts [0x0102, 0xA1B2, 0x0304]
        = ([0x0102, 0xA1B2, 0x0304] : List Nat).map fastSwap16
      ∧ (swapShorts [0x0102, 0xA1B2, 0x0304]).length
          = ([0x0102, 0xA1B2, 0x0304] : List Nat).length) :=
  ⟨by decide, C8_swapShorts_refines_elementwise [0x0102, 0xA1B2, 0x0304] (by decide)⟩

/-- C9: byte-order swapping is involutive: for each supported width (16, 32,
64 bits) swapping a scalar twice yields the original value, and each
swap-array routine applied twice restores the original buffer, for any element
count (covering 0, 1, and many). -/
theorem C9_swap_involutive :
    (∀ v : Nat, v < 2^16 → fastSwap16 (fastSwap16 v) = v)
    ∧ (∀ v : Nat, v < 2^32 → fastSwap32 (fastSwap32 v) = v)
    ∧ (∀ v : Nat, v < 2^64 → bswap_64 (bswap_64 v) = v)
    ∧ (∀ l : List Nat, (∀ x ∈ l, x < 2^16) → swapShorts (swapShorts l) = l)
    ∧ (∀ l : List Nat, (∀ x ∈ l, x < 2^32) → swapInts (swapInts l) = l)
    ∧ (∀ l : List Nat, (∀ x ∈ l, x < 2^64) → swapLongs (swapLongs l) = l) :=
  ⟨fastSwap16_involutive, fastSwap32_involutive, bswap_64_involutive,
    swapShorts_involutive, swapInts_involutive, swapLongs_involutive⟩

theorem C9_swap_involutive_witness :
    fastSwap16 (fastSwap16 0xBEEF) = 0xBEEF
    ∧ fastSwap32 (fastSwap32 0x01020304) = 0x01020304
    ∧ bswap_64 (bswap_64 0x1122334455667788) = 0x1122334455667788
    ∧ swapShorts (swapShorts []) = []
    ∧ swapShorts (swapShorts [0xBEEF]) = [0xBEEF]
    ∧ swapShorts (swapShorts [1, 2, 3, 4, 5]) = [1, 2, 3, 4, 5]
    ∧ swapInts (swapInts [5, 0xCAFEBABE, 7]) = [5, 0xCAFEBABE, 7]
    ∧ swapLongs (swapLongs [0x1122334455667788, 9]) = [0x1122334455667788, 9] :=
  ⟨C9_swap_involutive.1 0xBEEF (by norm_num),
    C9_swap_involutive.2.1 0x01020304 (by norm_num),
    C9_swap_involutive.2.2.1 0x1122334455667788 (by norm_num),
    C9_swap_involutive.2.2.2.1 [] (by decide),
    C9_swap_involutive.2.2.2.1 [0xBEEF] (by decide),
    C9_swap_involutive.2.2.2.1 [1, 2, 3, 4, 5] (by decide),
    C9_swap_involutive.2.2.2.2.1 [5, 0xCAFEBABE, 7] (by decide),
    C9_swap_involutive.2.2.2.2.2 [0x1122334455667788, 9] (by decide)⟩

/-- C10: `unsafeArrayCopy` with `swap = true` and a `sizeofElement` other than
2, 4 or 8 copies no bytes: the destination is unchanged and no error is
reported (the function simply returns after acquiring and releasing the
arrays). -/
theorem C10_unsafeArrayCopy_bad_element_size (dstBytes srcBytes : Mem)
    (dstOffset byteCount srcOffset sizeofElement : Nat) (srcPinOk dstPinOk : Bool)
    (h2 : sizeofElement ≠ 2) (h4 : sizeofElement ≠ 4) (h8 : sizeofElement ≠ 8) :
    OSMemory_unsafeArrayCopy dstBytes dstOffset byteCount srcBytes srcOffset
      sizeofElement true srcPinOk dstPinOk = dstBytes := by
  unfold OSMemory_unsafeArrayCopy
  cases srcPinOk <;> cases dstPinOk <;> simp [h2, h4, h8]

theorem C10_unsafeArrayCopy_bad_element_size_witness :
    ((3:Nat) ≠ 2 ∧ (3:Nat) ≠ 4 ∧ (3:Nat) ≠ 8)
    ∧ OSMemory_unsafeArrayCopy (fun _ => 5) 1 12 (fun _ => 7) 2 3 true true true
        = (fun _ => 5) :=
  ⟨⟨by decide, by decide, by decide⟩,
    C10_unsafeArrayCopy_bad_element_size (fun _ => 5) (fun _ => 7) 1 12 2 3 true true
      (by decide) (by decide) (by decide)⟩

/-- C1: `pokeInt` with `swap = true` stores the 32-bit byte reversal
(`pokeInt(A, 0x01020304, swap=true)` then `peekInt(A, swap=false)` yields
`0x04030201` and `peekInt(A, swap=true)` yields `0x01020304`), and for each
scalar width in {short, int, long}, poke with `swap = true` followed by peek
with `swap = true` returns the original value. -/
theorem C1_scalar_swap_roundtrip :
    (∀ (m : Mem) (a : Nat),
      OSMemory_peekInt (OSMemory_pokeInt m a 0x01020304 true) a false = 0x04030201
      ∧ OSMemory_peekInt (OSMemory_pokeInt m a 0x01020304 true) a true = 0x01020304)
    ∧ (∀ (m : Mem) (a v : Nat), v < 2^16 →
        OSMemory_peekShort (OSMemory_pokeShort m a v true) a true = v)
    ∧ (∀ (m : Mem) (a v : Nat), v < 2^32 →
        OSMemory_peekInt (OSMemory_pokeInt m a v true) a true = v)
    ∧ (∀ (longAlignmentMask : Nat) (m : Mem) (a v : Nat), v < 2^64 →
        OSMemory_peekLong longAlignmentMask
          (OSMemory_pokeLong longAlignmentMask m a v true) a true = v) := by
  refine ⟨?_, ?_, ?_, ?_⟩
  · intro m a
    have hpeekF : ∀ (m : Mem) (x : Nat), OSMemory_peekInt m x false = readLE m x 4 :=
      fun _ _ => rfl
    have hpeekT : ∀ (m : Mem) (x : Nat),
        OSMemory_peekInt m x true = fastSwap32 (readLE m x 4) := fun _ _ => rfl
    have hpoke : ∀ (m : Mem) (x v : Nat),
        OSMemory_pokeInt m x v true = writeLE m x 4 (fastSwap32 v) := fun _ _ _ => rfl
    constructor
    · rw [hpeekF, hpoke, readLE_writeLE]
      decide
    · rw [hpeekT, hpoke, readLE_writeLE]
      decide
  · exact fun m a v h => pokeShort_peekShort_roundtrip m a v true h
  · exact fun m a v h => pokeInt_peekInt_roundtrip m a v true h
  · exact fun mask m a v h => pokeLong_peekLong_roundtrip mask m a v true h

theorem C1_scalar_swap_roundtrip_witness :
    (OSMemory_peekInt (OSMemory_pokeInt (fun _ => 0) 16 0x01020304 true) 16 false
        = 0x04030201
      ∧ OSMemory_peekInt (OSMemory_pokeInt (fun _ => 0) 16 0x01020304 true) 16 true
        = 0x01020304)
    ∧ ((0x1234:Nat) < 2^16
      ∧ OSMemory_peekShort (OSMemory_pokeShort (fun _ => 0) 3 0x1234 true) 3 true = 0x1234)
    ∧ ((0xCAFEBABE:Nat) < 2^32
      ∧ OSMemory_peekInt (OSMemory_pokeInt (fun _ => 0) 5 0xCAFEBABE true) 5 true
        = 0xCAFEBABE)
    ∧ ((0x1122334455667788:Nat) < 2^64
      ∧ OSMemory_peekLong LONG_ALIGNMENT_MASK_ARM
          (OSMemory_pokeLong LONG_ALIGNMENT_MASK_ARM (fun _ => 0) 7 0x1122334455667788 true)
          7 true = 0x1122334455667788) :=
  ⟨C1_scalar_swap_roundtrip.1 (fun _ => 0) 16,
    ⟨by norm_num, C1_scalar_swap_roundtrip.2.1 (fun _ => 0) 3 0x1234 (by norm_num)⟩,
    ⟨by norm_num, C1_scalar_swap_roundtrip.2.2.1 (fun _ => 0) 5 0xCAFEBABE (by norm_num)⟩,
    ⟨by norm_num, C1_scalar_swap_roundtrip.2.2.2 LONG_ALIGNMENT_MASK_ARM (fun _ => 0) 7
      0x1122334455667788 (by norm_num)⟩⟩

/-- C4: for every 64-bit value and every address — aligned or not with respect
to the platform's long-alignment mask — `pokeLong` then `peekLong` with the
same swap flag returns the original bit pattern, and the byte-by-byte
misaligned fallback path is observationally identical to the direct aligned
path (`peekLong`/`pokeLong` do not depend on the alignment mask, hence not on
which branch executes). -/
theorem C4_pokeLong_peekLong_alignment :
    (∀ (longAlignmentMask : Nat) (m : Mem) (a v : Nat) (s : Bool), v < 2^64 →
      OSMemory_peekLong longAlignmentMask
        (OSMemory_pokeLong longAlignmentMask m a v s) a s = v)
    ∧ (∀ (mask₁ mask₂ : Nat) (m : Mem) (a : Nat) (s : Bool),
        OSMemory_peekLong mask₁ m a s = OSMemory_peekLong mask₂ m a s)
    ∧ (∀ (mask₁ mask₂ : Nat) (m : Mem) (a v : Nat) (s : Bool),
        OSMemory_pokeLong mask₁ m a v s = OSMemory_pokeLong mask₂ m a v s) := by
  refine ⟨?_, ?_, ?_⟩
  · exact fun mask m a v s h => pokeLong_peekLong_roundtrip mask m a v s h
  · intro mask₁ mask₂ m a s
    rw [OSMemory_peekLong_eq, OSMemory_peekLong_eq]
  · intro mask₁ mask₂ m a v s
    rw [OSMemory_pokeLong_eq, OSMemory_pokeLong_eq]

theorem C4_pokeLong_peekLong_alignment_witness :
    ((0x0123456789ABCDEF:Nat) < 2^64
      ∧ OSMemory_peekLong LONG_ALIGNMENT_MASK_ARM
          (OSMemory_pokeLong LONG_ALIGNMENT_MASK_ARM (fun _ => 0) 1 0x0123456789ABCDEF
            false) 1 false = 0x0123456789ABCDEF)
    ∧ OSMemory_peekLong LONG_ALIGNMENT_MASK_ARM (fun x => x + 9) 1 true
        = OSMemory_peekLong LONG_ALIGNMENT_MASK_X86 (fun x => x + 9) 1 true
    ∧ OSMemory_pokeLong LONG_ALIGNMENT_MASK_ARM (fun _ => 0) 1 0x0123456789ABCDEF true
        = OSMemory_pokeLong LONG_ALIGNMENT_MASK_X86 (fun _ => 0) 1 0x0123456789ABCDEF
            true :=
  ⟨⟨by norm_num, C4_pokeLong_peekLong_alignment.1 LONG_ALIGNMENT_MASK_ARM (fun _ => 0) 1
      0x0123456789ABCDEF false (by norm_num)⟩,
    C4_pokeLong_peekLong_alignment.2.1 LONG_ALIGNMENT_MASK_ARM LONG_ALIGNMENT_MASK_X86
      (fun x => x + 9) 1 true,
    C4_pokeLong_peekLong_alignment.2.2 LONG_ALIGNMENT_MASK_ARM LONG_ALIGNMENT_MASK_X86
      (fun _ => 0) 1 0x0123456789ABCDEF true⟩

/-- C2: when admission is granted and `calloc` succeeds, `malloc(N)` returns
the address just past the 8-byte header of a block of `N + 8` bytes; the
header at `a - 8` holds `N` and the `N` payload bytes at `a` are all zero. -/
theorem C2_malloc_header_and_zeroed_payload (track : Nat → Bool) (block : Nat)
    (m : Mem) (size : Nat) (htrack : track size = true) (hsize : size < 2^31) :
    (OSMemory_malloc track (some block) m size).1 = MallocOutcome.ok (block + 8)
    ∧ readLE (OSMemory_malloc track (some block) m size).2 (block + 8 - 8) 8 = size
    ∧ ∀ i, i < size → (OSMemory_malloc track (some block) m size).2 (block + 8 + i) = 0 := by
  unfold OSMemory_malloc
  rw [if_pos htrack]
  refine ⟨rfl, ?_, ?_⟩
  · show readLE (writeLE (zeroRange m block (size + 8)) block 8 size) (block + 8 - 8) 8
        = size
    rw [show block + 8 - 8 = block from by omega, readLE_writeLE]
    have hs : size < 2^(8*8) := by
      have : (2:Nat)^31 < 2^(8*8) := by norm_num
      omega
    exact Nat.mod_eq_of_lt hs
  · intro i hi
    show writeLE (zeroRange m block (size + 8)) block 8 size (block + 8 + i) = 0
    rw [writeLE_out _ _ _ _ _ (by omega)]
    unfold zeroRange
    rw [if_pos (by omega)]

theorem C2_malloc_header_and_zeroed_payload_witness :
    ((fun _ => true : Nat → Bool) 16 = true ∧ (16:Nat) < 2^31)
    ∧ ((OSMemory_malloc (fun _ => true) (some 100) (fun _ => 0xAB) 16).1
        = MallocOutcome.ok (100 + 8)
      ∧ readLE (OSMemory_malloc (fun _ => true) (some 100) (fun _ => 0xAB) 16).2
          (100 + 8 - 8) 8 = 16
      ∧ ∀ i, i < 16 →
          (OSMemory_malloc (fun _ => true) (some 100) (fun _ => 0xAB) 16).2 (100 + 8 + i)
            = 0) :=
  ⟨⟨rfl, by norm_num⟩,
    C2_malloc_header_and_zeroed_payload (fun _ => true) 100 (fun _ => 0xAB) 16 rfl
      (by norm_num)⟩

/-- C3: `free` on the address returned by a successful `malloc(N)` reads the
8-byte header just before the address, reports exactly the admitted size `N`
to the accounting authority, and frees the block from its header base
(`address - 8 = block`); moreover the header still reads `N` after any byte
write at or above the returned address (the payload side), so the header
invariant holds while the payload is in use. -/
theorem C3_free_reports_admitted_size (track : Nat → Bool) (block : Nat) (m : Mem)
    (size : Nat) (htrack : track size = true) (hsize : size < 2^31) :
    OSMemory_free (OSMemory_malloc track (some block) m size).2 (block + 8)
      = (size, block)
    ∧ ∀ x v, block + 8 ≤ x →
        OSMemory_free
          (writeByte (OSMemory_malloc track (some block) m size).2 x v) (block + 8)
          = (size, block) := by
  unfold OSMemory_malloc OSMemory_free
  rw [if_pos htrack]
  have hs : size < 2^(8*8) := by
    have : (2:Nat)^31 < 2^(8*8) := by norm_num
    omega
  constructor
  · show (readLE (writeLE (zeroRange m block (size + 8)) block 8 size) (block + 8 - 8) 8,
        block + 8 - 8) = (size, block)
    rw [show block + 8 - 8 = block from by omega, readLE_writeLE, Nat.mod_eq_of_lt hs]
  · intro x v hx
    show (readLE
        (writeByte (writeLE (zeroRange m block (size + 8)) block 8 size) x v)
        (block + 8 - 8) 8, block + 8 - 8) = (size, block)
    rw [show block + 8 - 8 = block from by omega]
    have hcongr : readLE
        (writeByte (writeLE (zeroRange m block (size + 8)) block 8 size) x v) block 8
        = readLE (writeLE (zeroRange m block (size + 8)) block 8 size) block 8 := by
      apply readLE_congr
      intro i hi
      show (if block + i = x then v % 2^8
          else writeLE (zeroRange m block (size + 8)) block 8 size (block + i))
        = writeLE (zeroRange m block (size + 8)) block 8 size (block + i)
      rw [if_neg (by omega)]
    rw [hcongr, readLE_writeLE, Nat.mod_eq_of_lt hs]

theorem C3_free_reports_admitted_size_witness :
    ((fun _ => true : Nat → Bool) 16 = true ∧ (16:Nat) < 2^31)
    ∧ (OSMemory_free (OSMemory_malloc (fun _ => true) (some 100) (fun _ => 0) 16).2
        (100 + 8) = (16, 100)
      ∧ ∀ x v, 100 + 8 ≤ x →
          OSMemory_free
            (writeByte (OSMemory_malloc (fun _ => true) (some 100) (fun _ => 0) 16).2 x v)
            (100 + 8) = (16, 100)) :=
  ⟨⟨rfl, by norm_num⟩,
    C3_free_reports_admitted_size (fun _ => true) 100 (fun _ => 0) 16 rfl (by norm_num)⟩

/-- C7: both `malloc` failure cases are out-of-memory conditions with no
partial allocation: if the accounting authority refuses the size, nothing is
allocated, 0 is returned and memory is untouched; if `calloc` fails after
admission, no block is created, 0 is returned and memory is untouched. -/
theorem C7_malloc_oom_no_partial_allocation (track : Nat → Bool) (calloc : Option Nat)
    (m : Mem) (size : Nat) :
    (track size = false →
      OSMemory_malloc track calloc m size = (MallocOutcome.oomAdmissionDenied, m))
    ∧ (track size = true → calloc = none →
      OSMemory_malloc track calloc m size = (MallocOutcome.oomCallocFailed, m)) := by
  constructor
  · intro h
    unfold OSMemory_malloc
    rw [if_neg (by simp [h])]
  · intro h hc
    subst hc
    unfold OSMemory_malloc
    rw [if_pos h]

theorem C7_malloc_oom_no_partial_allocation_witness :
    ((fun _ => false : Nat → Bool) 32 = false
      ∧ OSMemory_malloc (fun _ => false) (some 100) (fun _ => 0) 32
          = (MallocOutcome.oomAdmissionDenied, fun _ => 0))
    ∧ ((fun _ => true : Nat → Bool) 32 = true
      ∧ OSMemory_malloc (fun _ => true) none (fun _ => 0) 32
          = (MallocOutcome.oomCallocFailed, fun _ => 0)) :=
  ⟨⟨rfl, (C7_malloc_oom_no_partial_allocation (fun _ => false) (some 100) (fun _ => 0)
      32).1 rfl⟩,
    ⟨rfl, (C7_malloc_oom_no_partial_allocation (fun _ => true) none (fun _ => 0)
      32).2 rfl rfl⟩⟩

/-- C5: `mmapImpl` translates its mode per the fixed table — 0 (PRIVATE) to
read+write / copy-on-write non-shared, 1 (READ_ONLY) to read / shared,
2 (READ_WRITE) to read+write / shared — handing exactly those flags to the
`mmap` syscall and reporting a syscall failure as an I/O error carrying the OS
`errno`; every other mode yields an I/O error (`EINVAL`) and returns -1 for
every syscall oracle, i.e. without consulting the syscall. -/
theorem C5_mmap_mode_translation :
    (∀ (sys : Int → Int → Int → Nat → Nat → Option Nat) (errno : Nat)
        (fd offset size : Int) (addr : Nat),
      sys fd offset size (PROT_READ ||| PROT_WRITE) MAP_PRIVATE = some addr →
      OSMemory_mmapImpl sys errno fd offset size 0 = MmapResult.ok addr)
    ∧ (∀ (sys : Int → Int → Int → Nat → Nat → Option Nat) (errno : Nat)
        (fd offset size : Int),
      sys fd offset size (PROT_READ ||| PROT_WRITE) MAP_PRIVATE = none →
      OSMemory_mmapImpl sys errno fd offset size 0 = MmapResult.syscallFailed errno)
    ∧ (∀ (sys : Int → Int → Int → Nat → Nat → Option Nat) (errno : Nat)
        (fd offset size : Int) (addr : Nat),
      sys fd offset size PROT_READ MAP_SHARED = some addr →
      OSMemory_mmapImpl sys errno fd offset size 1 = MmapResult.ok addr)
    ∧ (∀ (sys : Int → Int → Int → Nat → Nat → Option Nat) (errno : Nat)
        (fd offset size : Int),
      sys fd offset size PROT_READ MAP_SHARED = none →
      OSMemory_mmapImpl sys errno fd offset size 1 = MmapResult.syscallFailed errno)
    ∧ (∀ (sys : Int → Int → Int → Nat → Nat → Option Nat) (errno : Nat)
        (fd offset size : Int) (addr : Nat),
      sys fd offset size (PROT_READ ||| PROT_WRITE) MAP_SHARED = some addr →
      OSMemory_mmapImpl sys errno fd offset size 2 = MmapResult.ok addr)
    ∧ (∀ (sys : Int → Int → Int → Nat → Nat → Option Nat) (errno : Nat)
        (fd offset size : Int),
      sys fd offset size (PROT_READ ||| PROT_WRITE) MAP_SHARED = none →
      OSMemory_mmapImpl sys errno fd offset size 2 = MmapResult.syscallFailed errno)
    ∧ (∀ (sys : Int → Int → Int → Nat → Nat → Option Nat) (errno : Nat)
        (fd offset size mapMode : Int),
      mapMode ≠ 0 → mapMode ≠ 1 → mapMode ≠ 2 →
      OSMemory_mmapImpl sys errno fd offset size mapMode = MmapResult.invalidMode EINVAL
      ∧ mmapReturnValue (OSMemory_mmapImpl sys errno fd offset size mapMode) = -1) := by
  refine ⟨?_, ?_, ?_, ?_, ?_, ?_, ?_⟩
  · intro sys errno fd offset size addr h
    unfold OSMemory_mmapImpl
    rw [if_pos rfl, h]
  · intro sys errno fd offset size h
    unfold OSMemory_mmapImpl
    rw [if_pos rfl, h]
  · intro sys errno fd offset size addr h
    unfold OSMemory_mmapImpl
    rw [if_neg (by norm_num), if_pos rfl, h]
  · intro sys errno fd offset size h
    unfold OSMemory_mmapImpl
    rw [if_neg (by norm_num), if_pos rfl, h]
  · intro sys errno fd offset size addr h
    unfold OSMemory_mmapImpl
    rw [if_neg (by norm_num), if_neg (by norm_num), if_pos rfl, h]
  · intro sys errno fd offset size h
    unfold OSMemory_mmapImpl
    rw [if_neg (by norm_num), if_neg (by norm_num), if_pos rfl, h]
  · intro sys errno fd offset size mapMode h0 h1 h2
    unfold OSMemory_mmapImpl
    rw [if_neg h0, if_neg h1, if_neg h2]
    exact ⟨rfl, rfl⟩

theorem C5_mmap_mode_translation_witness :
    ((fun _ _ _ _ _ => some 4096 : Int → Int → Int → Nat → Nat → Option Nat) 3 0 4096
        (PROT_READ ||| PROT_WRITE) MAP_PRIVATE = some 4096
      ∧ OSMemory_mmapImpl (fun _ _ _ _ _ => some 4096) 12 3 0 4096 0
          = MmapResult.ok 4096)
    ∧ ((fun _ _ _ _ _ => none : Int → Int → Int → Nat → Nat → Option Nat) 3 0 4096
        PROT_READ MAP_SHARED = none
      ∧ OSMemory_mmapImpl (fun _ _ _ _ _ => none) 12 3 0 4096 1
          = MmapResult.syscallFailed 12)
    ∧ (((7:Int) ≠ 0 ∧ (7:Int) ≠ 1 ∧ (7:Int) ≠ 2)
      ∧ OSMemory_mmapImpl (fun _ _ _ _ _ => some 4096) 12 3 0 4096 7
          = MmapResult.invalidMode EINVAL
      ∧ mmapReturnValue (OSMemory_mmapImpl (fun _ _ _ _ _ => some 4096) 12 3 0 4096 7)
          = -1) :=
  ⟨⟨rfl, C5_mmap_mode_translation.1 (fun _ _ _ _ _ => some 4096) 12 3 0 4096 4096 rfl⟩,
    ⟨rfl, C5_mmap_mode_translation.2.2.2.1 (fun _ _ _ _ _ => none) 12 3 0 4096 rfl⟩,
    ⟨⟨by norm_num, by norm_num, by norm_num⟩,
      C5_mmap_mode_translation.2.2.2.2.2.2 (fun _ _ _ _ _ => some 4096) 12 3 0 4096 7
        (by norm_num) (by norm_num) (by norm_num)⟩⟩

/-- C6: `isLoaded` is `true` unconditionally for `size = 0`; otherwise it
rounds the address down to the page boundary (the queried base is a multiple
of the page size, at most the original address, and together with the extended
length still covers the original range), queries `mincore` on the rounded
range, returns `false` when the syscall fails, and otherwise returns `true`
iff every page of the computed page count is resident. -/
theorem C6_isLoaded_spec (page_size : Nat) (mincoreSys : Nat → Nat → Option (Nat → Nat))
    (address size : Nat) (hps : 0 < page_size) :
    (size = 0 → OSMemory_isLoaded page_size mincoreSys address size = true)
    ∧ (address - address % page_size) % page_size = 0
    ∧ address - address % page_size ≤ address
    ∧ (address - address % page_size) + (size + address % page_size) = address + size
    ∧ (size ≠ 0 →
        mincoreSys (address - address % page_size) (size + address % page_size) = none →
        OSMemory_isLoaded page_size mincoreSys address size = false)
    ∧ (∀ vec, size ≠ 0 →
        mincoreSys (address - address % page_size) (size + address % page_size)
          = some vec →
        (OSMemory_isLoaded page_size mincoreSys address size = true
          ↔ ∀ i, i < (size + address % page_size + page_size - 1) / page_size →
              vec i = 1)) := by
  have hmodle : address % page_size ≤ address := Nat.mod_le address page_size
  refine ⟨?_, ?_, by omega, by omega, ?_, ?_⟩
  · intro h
    unfold OSMemory_isLoaded
    rw [if_pos h]
  · have h1 : address - address % page_size = page_size * (address / page_size) :=
      Nat.sub_eq_of_eq_add (Nat.div_add_mod address page_size).symm
    rw [h1, Nat.mul_mod_right]
  · intro hsz hnone
    unfold OSMemory_isLoaded
    rw [if_neg hsz]
    show (match mincoreSys (address - address % page_size) (size + address % page_size)
        with
      | none => false
      | some vec =>
        (List.range ((size + address % page_size + page_size - 1) / page_size)).all
          (fun i => vec i == 1)) = false
    rw [hnone]
  · intro vec hsz hsome
    unfold OSMemory_isLoaded
    rw [if_neg hsz]
    show (match mincoreSys (address - address % page_size) (size + address % page_size)
        with
      | none => false
      | some vec =>
        (List.range ((size + address % page_size + page_size - 1) / page_size)).all
          (fun i => vec i == 1)) = true
      ↔ ∀ i, i < (size + address % page_size + page_size - 1) / page_size → vec i = 1
    rw [hsome]
    simp only [List.all_eq_true, List.mem_range, beq_iff_eq]

theorem C6_isLoaded_spec_witness :
    (0 < 4096
      ∧ OSMemory_isLoaded 4096 (fun _ _ => none) 5000 0 = true)
    ∧ (5000 - 5000 % 4096) % 4096 = 0
    ∧ (5000:Nat) - 5000 % 4096 ≤ 5000
    ∧ (5000 - 5000 % 4096) + (100 + 5000 % 4096) = 5000 + 100
    ∧ OSMemory_isLoaded 4096 (fun _ _ => none) 5000 100 = false
    ∧ (OSMemory_isLoaded 4096 (fun _ _ => some (fun _ => 1)) 5000 100 = true
        ↔ ∀ i, i < (100 + 5000 % 4096 + 4096 - 1) / 4096 → (fun _ => 1 : Nat → Nat) i
            = 1) :=
  ⟨⟨by norm_num,
      (C6_isLoaded_spec 4096 (fun _ _ => none) 5000 0 (by norm_num)).1 rfl⟩,
    (C6_isLoaded_spec 4096 (fun _ _ => none) 5000 100 (by norm_num)).2.1,
    (C6_isLoaded_spec 4096 (fun _ _ => none) 5000 100 (by norm_num)).2.2.1,
    (C6_isLoaded_spec 4096 (fun _ _ => none) 5000 100 (by norm_num)).2.2.2.1,
    (C6_isLoaded_spec 4096 (fun _ _ => none) 5000 100 (by norm_num)).2.2.2.2.1
      (by norm_num) rfl,
    (C6_isLoaded_spec 4096 (fun _ _ => some (fun _ => 1)) 5000 100 (by norm_num)).2.2.2.2.2
      (fun _ => 1) (by norm_num) rfl⟩
